import Mathlib

/-!
Verification of the namespacelabel-operator label reconciliation engine.

Shallow embedding of the Go sources:
- `internal/controller/namespacelabel_controller.go` (`processLabels`, the
  apply loop of `Reconcile`, `updateStatus`, `updateNamespace`)
- `internal/labels/labels.go` (`LoadProtected`, `LoadProtectedLabels`,
  `Cleanup`)
- `internal/finalizer/finalizer.go` (`Cleanup`)

Go label maps (`map[string]string`) are embedded as association lists
`List (String × String)`; Go's zero-value indexing `m[k]` (which yields
`""` for a missing key) is `lookupV`; key-presence (`_, ok := m[k]`) is
`hasKey`.  Go map iteration order is immaterial for every function
embedded here: each loop classifies or writes keys independently.
-/

/-- Label maps: the embedding of Go `map[string]string`. -/
abbrev LMap := List (String × String)

/-- First-match association-list lookup. -/
def getVal (m : LMap) (k : String) : Option String :=
  match m with
  | [] => none
  | (a, b) :: tl => if a = k then some b else getVal tl k

/-- Go zero-value indexing `m[k]`: yields the stored value, or `""` when the
key is absent. -/
def lookupV (m : LMap) (k : String) : String :=
  (getVal m k).getD ""

/-- Go comma-ok indexing `_, ok := m[k]`: key presence. -/
def hasKey (m : LMap) (k : String) : Bool :=
  (getVal m k).isSome

/-- Key set of a label map. -/
def keys (m : LMap) : List String :=
  m.map Prod.fst

/-- Outcome of the per-key `switch` in `processLabels`
(`namespacelabel_controller.go:304-320`). -/
inductive LabelOutcome where
  | applied
  | skippedProtected
  | skippedDuplicate
deriving DecidableEq

/-- The per-key `switch` of `processLabels`: `case protectedLabels[key] != ""`
takes precedence, then `case namespace.Labels[key] != ""`, else the default
branch marks the key for application.  Note the source tests the *value*
under the key for non-emptiness (Go zero-value indexing), not key presence. -/
def classifyLabel (protectedLabels nsLabels : LMap) (k : String) : LabelOutcome :=
  if lookupV protectedLabels k ≠ "" then .skippedProtected
  else if lookupV nsLabels k ≠ "" then .skippedDuplicate
  else .applied

/-- Embedding of `processLabels` (`namespacelabel_controller.go:293-322`):
the loop over `namespaceLabel.Spec.Labels` builds the three result maps
`(updatedLabels, skippedLabels, duplicateLabels)`; each entry of the spec
map lands in the map selected by the `switch`.  The namespace snapshot is
not mutated during the loop (the apply loop runs afterwards in `Reconcile`),
so the classification of each key depends only on the inputs. -/
def processLabels (specLabels protectedLabels nsLabels : LMap) :
    LMap × LMap × LMap :=
  ( specLabels.filter (fun kv => classifyLabel protectedLabels nsLabels kv.1 == .applied)
  , specLabels.filter (fun kv => classifyLabel protectedLabels nsLabels kv.1 == .skippedProtected)
  , specLabels.filter (fun kv => classifyLabel protectedLabels nsLabels kv.1 == .skippedDuplicate) )

/-- Go map assignment `m[k] = v`: replace the value when the key is present
(first occurrence; label maps carry each key once), insert the pair
otherwise. -/
def upsert (m : LMap) (k v : String) : LMap :=
  match m with
  | [] => [(k, v)]
  | (a, b) :: tl => if a = k then (k, v) :: tl else (a, b) :: upsert tl k v

/-- The apply loop of `Reconcile` (`namespacelabel_controller.go:240-242`):
`for key, value := range updatedLabels { namespace.Labels[key] = value }`. -/
def applyAll (nsLabels updatedLabels : LMap) : LMap :=
  updatedLabels.foldl (fun acc kv => upsert acc kv.1 kv.2) nsLabels

/-- Status subresource of a Namespacelabel
(`api/v1/namespacelabel_types.go`): the two observable label maps. -/
structure NamespacelabelStatus where
  appliedLabels : LMap
  skippedLabels : LMap
deriving DecidableEq

/-- Embedding of `updateStatus` (`namespacelabel_controller.go:324-351`),
restricted to the status maps: `Status.AppliedLabels = updatedLabels` and
`Status.SkippedLabels = skippedLabels`.  The `duplicateLabels` argument
feeds only the `DuplicateLabels` condition and events in the source; it is
never merged into `Status.SkippedLabels`. -/
def updateStatus (_status : NamespacelabelStatus)
    (updatedLabels skippedLabels _duplicateLabels : LMap) : NamespacelabelStatus :=
  { appliedLabels := updatedLabels
  , skippedLabels := skippedLabels }

/-- The non-deletion path of `Reconcile`
(`namespacelabel_controller.go:238-250`) once the protected set and the
namespace have been loaded successfully: partition the spec labels, apply
the accepted subset to the namespace label map, and rewrite the status
maps.  Returns the persisted namespace label map and the persisted status. -/
def reconcileActive (protectedLabels nsLabels specLabels : LMap)
    (status : NamespacelabelStatus) : LMap × NamespacelabelStatus :=
  let t := processLabels specLabels protectedLabels nsLabels
  (applyAll nsLabels t.1, updateStatus status t.1 t.2.1 t.2.2)

/-- A Namespacelabel object as the finalizer code sees it: its spec label
map and its finalizer list. -/
structure Namespacelabel where
  specLabels : LMap
  finalizers : List String
deriving DecidableEq

/-- The finalizer token `namespacelabels.finalizers.dana.io`
(`internal/finalizer/finalizer.go:18`). -/
def finalizerName : String := "namespacelabels.finalizers.dana.io"

/-- Embedding of the removal loop of `labels.Cleanup`
(`internal/labels/labels.go:89-91`):
`for key := range namespaceLabel.Spec.Labels { delete(namespace.Labels, key) }`.
Every namespace entry whose key is present in the spec map is deleted,
regardless of its value and of which writer set it. -/
def cleanupNamespaceLabels (nsLabels specLabels : LMap) : LMap :=
  nsLabels.filter (fun p => !(hasKey specLabels p.1))

/-- Error outcomes of the cleanup path. -/
inductive CleanupError where
  | namespaceGetFailed
  | namespaceUpdateFailed
  | finalizerUpdateFailed
deriving DecidableEq

/-- Success/failure injection for the store calls made by the cleanup path:
whether `Get` on an existing namespace succeeds, whether `Update` of the
namespace succeeds, and whether `Update` of the Namespacelabel succeeds. -/
structure StoreOutcomes where
  nsGetOk : Bool
  nsUpdateOk : Bool
  crUpdateOk : Bool
deriving DecidableEq

/-- Embedding of `labels.Cleanup` (`internal/labels/labels.go:80-100`):
fetch the namespace (an absent namespace or a failing `Get` both return the
error unchanged — the source has no `IgnoreNotFound`), delete every spec
key from its label map, and persist it.  The returned map is the persisted
namespace label state: it is unchanged whenever an error is returned. -/
def labelsCleanup (nsLabels : Option LMap) (out : StoreOutcomes)
    (specLabels : LMap) : Option CleanupError × Option LMap :=
  match nsLabels with
  | none => (some .namespaceGetFailed, none)
  | some m =>
    if out.nsGetOk = false then (some .namespaceGetFailed, some m)
    else if out.nsUpdateOk = false then (some .namespaceUpdateFailed, some m)
    else (none, some (cleanupNamespaceLabels m specLabels))

/-- Embedding of `finalizer.Cleanup` (`internal/finalizer/finalizer.go:85-100`):
run the label cleanup; on any error return it with the Namespacelabel
untouched; only on success remove the finalizer and persist the object
(a failing persist leaves the stored object unchanged).  Result: the error
(if any), the persisted namespace labels, and the persisted Namespacelabel. -/
def finalizerCleanup (nsLabels : Option LMap) (cr : Namespacelabel)
    (out : StoreOutcomes) : Option CleanupError × Option LMap × Namespacelabel :=
  match labelsCleanup nsLabels out cr.specLabels with
  | (some e, ns2) => (some e, ns2, cr)
  | (none, ns2) =>
    let cr2 : Namespacelabel :=
      { cr with finalizers := cr.finalizers.filter (fun s => s ≠ finalizerName) }
    if out.crUpdateOk = false then (some .finalizerUpdateFailed, ns2, cr)
    else (none, ns2, cr2)

/-- Error outcome of `updateNamespace`. -/
inductive UpdateError where
  | persistFailed
deriving DecidableEq

/-- Embedding of `updateNamespace` (`namespacelabel_controller.go:285-291`).
The store is modelled as the schedule of outcomes successive persist
attempts would have (`true` = that attempt fails, e.g. with an
optimistic-concurrency conflict).  The source body is a single `r.Update`
call with no loop, so exactly one attempt is consumed; the second component
records the number of persist attempts performed. -/
def updateNamespace (attemptFails : List Bool) : Option UpdateError × Nat :=
  if attemptFails.headD false then (some .persistFailed, 1) else (none, 1)

/-- Error outcomes of the protected-set loaders. -/
inductive LoadError where
  | configMissing
  | configMalformed
deriving DecidableEq

/-- Outcome of `json.Unmarshal` into a fresh map: `parsed m` on success,
`failed m` on a parse error that leaves the map partially filled
(possibly empty). -/
inductive UnmarshalOutcome where
  | parsed (m : LMap)
  | failed (m : LMap)
deriving DecidableEq

/-- Embedding of `labels.LoadProtected` (`internal/labels/labels.go:18-30`).
`env` is `os.Getenv("PROTECTED_LABELS")` (`""` both when unset and when set
empty); `unmarshal` is the JSON decoding of the string.  The source checks
the `json.Unmarshal` error only to log it — it falls through and returns
the (empty or partially filled) map with a nil error. -/
def LoadProtected (env : String) (unmarshal : String → UnmarshalOutcome) :
    Except LoadError LMap :=
  if env = "" then .error .configMissing
  else
    match unmarshal env with
    | .parsed m => .ok m
    | .failed m => .ok m

/-- Embedding of `labels.LoadProtectedLabels`
(`internal/labels/labels.go:62-76`) and of the identical
`utils.LoadProtectedLabels` (`internal/utils/config.go`): same shape as
`LoadProtected` but the `json.Unmarshal` error is returned. -/
def LoadProtectedLabels (env : String) (unmarshal : String → UnmarshalOutcome) :
    Except LoadError LMap :=
  if env = "" then .error .configMissing
  else
    match unmarshal env with
    | .parsed m => .ok m
    | .failed _ => .error .configMalformed


/-! ### Lemmas about the map embedding -/

/-- A key is in the key set exactly when some entry carries it. -/
theorem mem_keys_iff (m : LMap) (k : String) :
    k ∈ keys m ↔ ∃ v, (k, v) ∈ m := by
  simp only [keys, List.mem_map]
  constructor
  · rintro ⟨⟨a, b⟩, hm, rfl⟩
    exact ⟨b, hm⟩
  · rintro ⟨v, hv⟩
    exact ⟨(k, v), hv, rfl⟩

/-- Lookup fails exactly on keys outside the key set. -/
theorem getVal_eq_none_iff (m : LMap) (k : String) :
    getVal m k = none ↔ k ∉ keys m := by
  induction m with
  | nil => simp [getVal, keys]
  | cons hd tl ih =>
    obtain ⟨a, b⟩ := hd
    by_cases h : a = k
    · subst h
      simp [getVal, keys]
    · have hka : ¬k = a := fun e => h e.symm
      rw [show keys ((a, b) :: tl) = a :: keys tl from rfl]
      rw [show getVal ((a, b) :: tl) k = getVal tl k by simp [getVal, h]]
      rw [List.mem_cons, ih]
      simp [hka]

/-- A successful lookup returns an entry of the list. -/
theorem mem_of_getVal_eq_some {m : LMap} {k v : String}
    (h : getVal m k = some v) : (k, v) ∈ m := by
  induction m with
  | nil => simp [getVal] at h
  | cons hd tl ih =>
    obtain ⟨a, b⟩ := hd
    by_cases ha : a = k
    · subst ha
      simp [getVal] at h
      simp [h]
    · simp only [getVal, if_neg ha] at h
      exact List.mem_cons_of_mem _ (ih h)

/-- On a list with no duplicate keys, membership determines the lookup. -/
theorem getVal_of_mem_nodup {m : LMap} {k v : String}
    (hn : (keys m).Nodup) (h : (k, v) ∈ m) : getVal m k = some v := by
  induction m with
  | nil => simp at h
  | cons hd tl ih =>
    obtain ⟨a, b⟩ := hd
    rw [show keys ((a, b) :: tl) = a :: keys tl from rfl] at hn
    rw [List.nodup_cons] at hn
    rcases List.mem_cons.mp h with h1 | h1
    · rw [Prod.mk.injEq] at h1
      obtain ⟨rfl, rfl⟩ := h1
      simp [getVal]
    · have hak : a ≠ k := by
        rintro rfl
        exact hn.1 ((mem_keys_iff tl a).mpr ⟨v, h1⟩)
      simp only [getVal, if_neg hak]
      exact ih hn.2 h1

/-- Go map assignment stores the assigned value under the assigned key. -/
theorem getVal_upsert_self (m : LMap) (k v : String) :
    getVal (upsert m k v) k = some v := by
  induction m with
  | nil => simp [upsert, getVal]
  | cons hd tl ih =>
    obtain ⟨a, b⟩ := hd
    by_cases ha : a = k
    · subst ha
      simp [upsert, getVal]
    · simp only [upsert, if_neg ha, getVal, if_neg ha]
      exact ih

/-- Go map assignment leaves every other key untouched. -/
theorem getVal_upsert_ne (m : LMap) (k v k' : String) (h : k' ≠ k) :
    getVal (upsert m k v) k' = getVal m k' := by
  induction m with
  | nil =>
    simp only [upsert, getVal]
    rw [if_neg (fun e : k = k' => h e.symm)]
  | cons hd tl ih =>
    obtain ⟨a, b⟩ := hd
    by_cases ha : a = k
    · subst ha
      simp only [upsert, if_pos rfl, getVal, if_neg (fun e : a = k' => h e.symm)]
    · simp only [upsert, if_neg ha, getVal]
      by_cases hak : a = k'
      · simp [hak]
      · simp only [if_neg hak]
        exact ih

/-- Keys outside the written set are untouched by the apply loop. -/
theorem getVal_applyAll_not_mem (upd : LMap) (ns : LMap) (k : String)
    (h : k ∉ keys upd) : getVal (applyAll ns upd) k = getVal ns k := by
  induction upd generalizing ns with
  | nil => simp [applyAll]
  | cons hd tl ih =>
    obtain ⟨a, b⟩ := hd
    rw [show keys ((a, b) :: tl) = a :: keys tl from rfl] at h
    rw [List.mem_cons] at h
    push_neg at h
    rw [show applyAll ns ((a, b) :: tl) = applyAll (upsert ns a b) tl from rfl]
    rw [ih (upsert ns a b) h.2]
    exact getVal_upsert_ne ns a b k h.1

/-- With no duplicate keys in the written set, the apply loop stores exactly
the looked-up value. -/
theorem getVal_applyAll_mem (upd : LMap) (ns : LMap) (k v : String)
    (hn : (keys upd).Nodup) (h : getVal upd k = some v) :
    getVal (applyAll ns upd) k = some v := by
  induction upd generalizing ns with
  | nil => simp [getVal] at h
  | cons hd tl ih =>
    obtain ⟨a, b⟩ := hd
    rw [show keys ((a, b) :: tl) = a :: keys tl from rfl] at hn
    rw [List.nodup_cons] at hn
    rw [show applyAll ns ((a, b) :: tl) = applyAll (upsert ns a b) tl from rfl]
    by_cases ha : a = k
    · subst ha
      simp [getVal] at h
      rw [getVal_applyAll_not_mem tl (upsert ns a b) a hn.1]
      rw [getVal_upsert_self]
      simp [h]
    · simp only [getVal, if_neg ha] at h
      exact ih (upsert ns a b) hn.2 h

/-- Lookup through a filter whose predicate depends only on the key. -/
theorem getVal_filter_key (m : LMap) (p : String → Bool) (k : String) :
    getVal (m.filter (fun kv => p kv.1)) k =
      if p k then getVal m k else none := by
  induction m with
  | nil => simp [getVal]
  | cons hd tl ih =>
    obtain ⟨a, b⟩ := hd
    rw [List.filter_cons]
    by_cases hp : p a = true
    · rw [if_pos (by simpa using hp)]
      by_cases ha : a = k
      · subst ha
        simp [getVal, hp]
      · simp only [getVal, if_neg ha]
        exact ih
    · have hp' : ¬(p a = true) := by simpa using hp
      rw [if_neg hp']
      by_cases ha : a = k
      · subst ha
        rw [ih, if_neg hp', if_neg hp']
      · rw [ih]
        by_cases hk : p k = true
        · rw [if_pos hk, if_pos hk]
          simp [getVal, if_neg ha]
        · rw [if_neg hk, if_neg hk]

/-- Key sets of filtered maps stay duplicate-free. -/
theorem keys_filter_nodup (m : LMap) (p : String × String → Bool)
    (hn : (keys m).Nodup) : (keys (m.filter p)).Nodup := by
  simp only [keys] at hn ⊢
  exact List.Nodup.sublist ((m.filter_sublist (p := p)).map Prod.fst) hn

/-! ### Lemmas about the partition step -/

/-- Characterization of the protected branch of the `switch`. -/
theorem classifyLabel_eq_skippedProtected_iff (pr ns : LMap) (k : String) :
    classifyLabel pr ns k = .skippedProtected ↔ lookupV pr k ≠ "" := by
  unfold classifyLabel
  by_cases hp : lookupV pr k ≠ ""
  · simp [hp]
  · by_cases hd : lookupV ns k ≠ "" <;> simp [hp, hd]

/-- Characterization of the duplicate branch of the `switch`. -/
theorem classifyLabel_eq_skippedDuplicate_iff (pr ns : LMap) (k : String) :
    classifyLabel pr ns k = .skippedDuplicate ↔
      (lookupV pr k = "" ∧ lookupV ns k ≠ "") := by
  unfold classifyLabel
  by_cases hp : lookupV pr k ≠ ""
  · simp [hp]
  · by_cases hd : lookupV ns k ≠ "" <;>
      simp [hp, hd, not_ne_iff.mp hp]

/-- Characterization of the default (apply) branch of the `switch`. -/
theorem classifyLabel_eq_applied_iff (pr ns : LMap) (k : String) :
    classifyLabel pr ns k = .applied ↔
      (lookupV pr k = "" ∧ lookupV ns k = "") := by
  unfold classifyLabel
  by_cases hp : lookupV pr k ≠ ""
  · simp [hp]
  · by_cases hd : lookupV ns k ≠ "" <;>
      simp [hp, hd, not_ne_iff.mp hp]
    exact not_ne_iff.mp hd

/-- Membership in the `updatedLabels` result of the partition. -/
theorem mem_updated_iff (spec pr ns : LMap) (k v : String) :
    (k, v) ∈ (processLabels spec pr ns).1 ↔
      ((k, v) ∈ spec ∧ classifyLabel pr ns k = .applied) := by
  show (k, v) ∈ spec.filter (fun kv => classifyLabel pr ns kv.1 == .applied) ↔ _
  rw [List.mem_filter]
  simp [beq_iff_eq]

/-- Membership in the `skippedLabels` result of the partition. -/
theorem mem_skipped_iff (spec pr ns : LMap) (k v : String) :
    (k, v) ∈ (processLabels spec pr ns).2.1 ↔
      ((k, v) ∈ spec ∧ classifyLabel pr ns k = .skippedProtected) := by
  show (k, v) ∈ spec.filter (fun kv => classifyLabel pr ns kv.1 == .skippedProtected) ↔ _
  rw [List.mem_filter]
  simp [beq_iff_eq]

/-- Membership in the `duplicateLabels` result of the partition. -/
theorem mem_duplicate_iff (spec pr ns : LMap) (k v : String) :
    (k, v) ∈ (processLabels spec pr ns).2.2 ↔
      ((k, v) ∈ spec ∧ classifyLabel pr ns k = .skippedDuplicate) := by
  show (k, v) ∈ spec.filter (fun kv => classifyLabel pr ns kv.1 == .skippedDuplicate) ↔ _
  rw [List.mem_filter]
  simp [beq_iff_eq]

/-- Keys not classified `applied` never enter `updatedLabels`. -/
theorem not_mem_updated_keys (spec pr ns : LMap) (k : String)
    (h : classifyLabel pr ns k ≠ .applied) :
    k ∉ keys (processLabels spec pr ns).1 := by
  intro hk
  obtain ⟨v, hv⟩ := (mem_keys_iff _ _).mp hk
  exact h ((mem_updated_iff spec pr ns k v).mp hv).2

/-- The apply loop leaves keys alone that the partition did not mark. -/
theorem getVal_after_apply_of_not_applied (spec pr ns : LMap) (k : String)
    (h : classifyLabel pr ns k ≠ .applied) :
    getVal (applyAll ns (processLabels spec pr ns).1) k = getVal ns k :=
  getVal_applyAll_not_mem _ ns k (not_mem_updated_keys spec pr ns k h)

/-- The key sets of the three partition results inherit key uniqueness. -/
theorem keys_updated_nodup (spec pr ns : LMap) (hn : (keys spec).Nodup) :
    (keys (processLabels spec pr ns).1).Nodup :=
  keys_filter_nodup spec _ hn

/-- With unique spec keys, an applied entry is stored verbatim on the
namespace by the apply loop. -/
theorem getVal_after_apply_of_applied (spec pr ns : LMap) (k v : String)
    (hn : (keys spec).Nodup) (hmem : (k, v) ∈ spec)
    (h : classifyLabel pr ns k = .applied) :
    getVal (applyAll ns (processLabels spec pr ns).1) k = some v := by
  have hupd : (k, v) ∈ (processLabels spec pr ns).1 :=
    (mem_updated_iff spec pr ns k v).mpr ⟨hmem, h⟩
  have hnodup := keys_updated_nodup spec pr ns hn
  exact getVal_applyAll_mem _ ns k v hnodup (getVal_of_mem_nodup hnodup hupd)

/-- A key present in `updatedLabels` was classified `applied`. -/
theorem classify_of_mem_updated_keys (spec pr ns : LMap) (k : String)
    (h : k ∈ keys (processLabels spec pr ns).1) :
    classifyLabel pr ns k = .applied := by
  obtain ⟨v, hv⟩ := (mem_keys_iff _ _).mp h
  exact ((mem_updated_iff spec pr ns k v).mp hv).2

/-- A key present in `skippedLabels` was classified protected. -/
theorem classify_of_mem_skipped_keys (spec pr ns : LMap) (k : String)
    (h : k ∈ keys (processLabels spec pr ns).2.1) :
    classifyLabel pr ns k = .skippedProtected := by
  obtain ⟨v, hv⟩ := (mem_keys_iff _ _).mp h
  exact ((mem_skipped_iff spec pr ns k v).mp hv).2

/-- A key present in `duplicateLabels` was classified duplicate. -/
theorem classify_of_mem_duplicate_keys (spec pr ns : LMap) (k : String)
    (h : k ∈ keys (processLabels spec pr ns).2.2) :
    classifyLabel pr ns k = .skippedDuplicate := by
  obtain ⟨v, hv⟩ := (mem_keys_iff _ _).mp h
  exact ((mem_duplicate_iff spec pr ns k v).mp hv).2

/-! ### Claim C1 -/

/-- C1 is false as stated: for the desired map `{k: v}`, protected set
`{k: ""}` (the key is in `D ∩ P` with the empty-string value) and an empty
namespace, `processLabels` classifies `k` as apply — not skip-protected —
and the reconciliation writes `k` into the namespace label map. -/
theorem c1_counterexample :
    hasKey [("k", "v")] "k" = true ∧
    hasKey [("k", "")] "k" = true ∧
    (processLabels [("k", "v")] [("k", "")] []).1 = [("k", "v")] ∧
    classifyLabel [("k", "")] [] "k" = .applied ∧
    getVal (reconcileActive [("k", "")] [] [("k", "v")] ⟨[], []⟩).1 "k" = some "v" ∧
    getVal ([] : LMap) "k" = none := by
  refine ⟨by decide, by decide, by decide, by decide, by decide, by decide⟩

/-- C1 (amended): every key of the desired map whose value in the protected
set is non-empty is classified skip-protected — it never enters `toApply`,
its spec entry lands in the protected-skip map, and the reconciliation
leaves the namespace label map unchanged at that key.  (A protected-set key
carrying the empty-string value is not treated as protected by
`processLabels`.) -/
theorem c1_amended_nonempty_protected_never_applied
    (spec pr ns : LMap) (st : NamespacelabelStatus) (k : String)
    (hp : lookupV pr k ≠ "") :
    getVal (processLabels spec pr ns).1 k = none ∧
    (∀ v, (k, v) ∈ spec → (k, v) ∈ (processLabels spec pr ns).2.1) ∧
    getVal (reconcileActive pr ns spec st).1 k = getVal ns k := by
  have hcl : classifyLabel pr ns k = .skippedProtected :=
    (classifyLabel_eq_skippedProtected_iff pr ns k).mpr hp
  have hne : classifyLabel pr ns k ≠ .applied := by
    rw [hcl]
    intro hco
    cases hco
  refine ⟨?_, ?_, ?_⟩
  · rw [getVal_eq_none_iff]
    exact not_mem_updated_keys spec pr ns k hne
  · intro v hv
    exact (mem_skipped_iff spec pr ns k v).mpr ⟨hv, hcl⟩
  · show getVal (applyAll ns (processLabels spec pr ns).1) k = getVal ns k
    exact getVal_after_apply_of_not_applied spec pr ns k hne

/-- C1 witness: a concrete protected key with non-empty value is skipped and
left untouched on the namespace. -/
theorem c1_witness :
    getVal (processLabels [("a", "1")] [("a", "x")] []).1 "a" = none ∧
    getVal (reconcileActive [("a", "x")] [] [("a", "1")] ⟨[], []⟩).1 "a" =
      getVal ([] : LMap) "a" :=
  ⟨(c1_amended_nonempty_protected_never_applied [("a", "1")] [("a", "x")] []
      ⟨[], []⟩ "a" (by decide)).1,
   (c1_amended_nonempty_protected_never_applied [("a", "1")] [("a", "x")] []
      ⟨[], []⟩ "a" (by decide)).2.2⟩

/-! ### Claim C2 -/

/-- C2 is false as stated: the key `k` of the desired map is a key of the
current target label map (with the empty-string value), so the claimed
precedence demands skip-duplicate, but `processLabels` places it in
`toApply` and leaves the duplicate map empty. -/
theorem c2_counterexample :
    hasKey [("k", "")] "k" = true ∧
    processLabels [("k", "v")] [] [("k", "")] = ([("k", "v")], [], []) := by
  refine ⟨by decide, by decide⟩

/-- C2 (amended): the partition returns three maps with pairwise disjoint
key sets whose union is exactly the key set of the desired map, and each
entry `(k, v)` of the desired map is classified by this precedence: a
non-empty value under `k` in the protected map yields skip-protected;
otherwise a non-empty value under `k` on the current target yields
skip-duplicate; otherwise the entry goes to `toApply`.  (Key presence with
an empty-string value does not trigger either skip.) -/
theorem c2_amended_partition (spec pr cur : LMap) (k v : String) :
    ((k, v) ∈ (processLabels spec pr cur).2.1 ↔
      ((k, v) ∈ spec ∧ lookupV pr k ≠ "")) ∧
    ((k, v) ∈ (processLabels spec pr cur).2.2 ↔
      ((k, v) ∈ spec ∧ lookupV pr k = "" ∧ lookupV cur k ≠ "")) ∧
    ((k, v) ∈ (processLabels spec pr cur).1 ↔
      ((k, v) ∈ spec ∧ lookupV pr k = "" ∧ lookupV cur k = "")) ∧
    (k ∈ keys spec ↔
      (k ∈ keys (processLabels spec pr cur).1 ∨
       k ∈ keys (processLabels spec pr cur).2.1 ∨
       k ∈ keys (processLabels spec pr cur).2.2)) ∧
    ¬(k ∈ keys (processLabels spec pr cur).1 ∧
      k ∈ keys (processLabels spec pr cur).2.1) ∧
    ¬(k ∈ keys (processLabels spec pr cur).1 ∧
      k ∈ keys (processLabels spec pr cur).2.2) ∧
    ¬(k ∈ keys (processLabels spec pr cur).2.1 ∧
      k ∈ keys (processLabels spec pr cur).2.2) := by
  refine ⟨?_, ?_, ?_, ?_, ?_, ?_, ?_⟩
  · rw [mem_skipped_iff, classifyLabel_eq_skippedProtected_iff]
  · rw [mem_duplicate_iff, classifyLabel_eq_skippedDuplicate_iff]
  · rw [mem_updated_iff, classifyLabel_eq_applied_iff]
  · constructor
    · intro hk
      obtain ⟨w, hw⟩ := (mem_keys_iff _ _).mp hk
      cases hcl : classifyLabel pr cur k with
      | applied =>
        exact Or.inl ((mem_keys_iff _ _).mpr
          ⟨w, (mem_updated_iff spec pr cur k w).mpr ⟨hw, hcl⟩⟩)
      | skippedProtected =>
        exact Or.inr (Or.inl ((mem_keys_iff _ _).mpr
          ⟨w, (mem_skipped_iff spec pr cur k w).mpr ⟨hw, hcl⟩⟩))
      | skippedDuplicate =>
        exact Or.inr (Or.inr ((mem_keys_iff _ _).mpr
          ⟨w, (mem_duplicate_iff spec pr cur k w).mpr ⟨hw, hcl⟩⟩))
    · rintro (hk | hk | hk)
      · obtain ⟨w, hw⟩ := (mem_keys_iff _ _).mp hk
        exact (mem_keys_iff _ _).mpr
          ⟨w, ((mem_updated_iff spec pr cur k w).mp hw).1⟩
      · obtain ⟨w, hw⟩ := (mem_keys_iff _ _).mp hk
        exact (mem_keys_iff _ _).mpr
          ⟨w, ((mem_skipped_iff spec pr cur k w).mp hw).1⟩
      · obtain ⟨w, hw⟩ := (mem_keys_iff _ _).mp hk
        exact (mem_keys_iff _ _).mpr
          ⟨w, ((mem_duplicate_iff spec pr cur k w).mp hw).1⟩
  · rintro ⟨h1, h2⟩
    have e1 := classify_of_mem_updated_keys spec pr cur k h1
    have e2 := classify_of_mem_skipped_keys spec pr cur k h2
    rw [e1] at e2
    cases e2
  · rintro ⟨h1, h2⟩
    have e1 := classify_of_mem_updated_keys spec pr cur k h1
    have e2 := classify_of_mem_duplicate_keys spec pr cur k h2
    rw [e1] at e2
    cases e2
  · rintro ⟨h1, h2⟩
    have e1 := classify_of_mem_skipped_keys spec pr cur k h1
    have e2 := classify_of_mem_duplicate_keys spec pr cur k h2
    rw [e1] at e2
    cases e2

/-! ### Claim C4 -/

/-- C4 is false as stated: reconciling the claim's own scenario (request R2
desiring `a=2, b=3` against a target already carrying `a=1`) leaves
`status.skipped` empty even though `a` was skipped as a duplicate — the
duplicate-skip map is never merged into `status.skipped`. -/
theorem c4_counterexample :
    (reconcileActive [] [("a", "1")] [("a", "2"), ("b", "3")]
        ⟨[], []⟩).2.appliedLabels = [("b", "3")] ∧
    (reconcileActive [] [("a", "1")] [("a", "2"), ("b", "3")]
        ⟨[], []⟩).2.skippedLabels = [] ∧
    (processLabels [("a", "2"), ("b", "3")] [] [("a", "1")]).2.2 =
      [("a", "2")] ∧
    (([] : LMap) ≠ [("a", "2")]) := by
  refine ⟨by decide, by decide, by decide, by decide⟩

/-- C4 (amended): after a successful reconciliation, `status.skipped`
equals the protected-skip map alone and `status.applied` equals `toApply`;
a key skipped only as a duplicate is reported through events and the
`DuplicateLabels` condition but never appears in `status.skipped`. -/
theorem c4_amended_skipped_is_protected_only
    (pr ns spec : LMap) (st : NamespacelabelStatus) (k : String) :
    (reconcileActive pr ns spec st).2.skippedLabels =
      (processLabels spec pr ns).2.1 ∧
    (reconcileActive pr ns spec st).2.appliedLabels =
      (processLabels spec pr ns).1 ∧
    (classifyLabel pr ns k = .skippedDuplicate →
      getVal (reconcileActive pr ns spec st).2.skippedLabels k = none) := by
  refine ⟨rfl, rfl, fun h => ?_⟩
  show getVal (processLabels spec pr ns).2.1 k = none
  rw [getVal_eq_none_iff]
  intro hk
  have e := classify_of_mem_skipped_keys spec pr ns k hk
  rw [h] at e
  cases e

/-- C4 witness: in the scenario above the duplicate key `a` is absent from
`status.skipped`. -/
theorem c4_witness :
    getVal (reconcileActive [] [("a", "1")] [("a", "2")]
      ⟨[], []⟩).2.skippedLabels "a" = none :=
  (c4_amended_skipped_is_protected_only [] [("a", "1")] [("a", "2")]
    ⟨[], []⟩ "a").2.2 (by decide)

/-! ### Claim C5 -/

/-- C5: the protected-set loader used by the reconciler
(`labels.LoadProtected`) does not fail closed.  With the policy source
absent it does return a missing-config error, but with the source present
and unparsable it swallows the `json.Unmarshal` error (only logging it) and
returns a successful empty/partial mapping — while the sibling loader
`LoadProtectedLabels`, matching the documented intent, returns the error. -/
theorem c5_loadProtected_swallows_parse_error :
    LoadProtected "not-json" (fun _ => .failed []) = .ok [] ∧
    LoadProtected "" (fun _ => .failed []) = .error .configMissing ∧
    LoadProtectedLabels "not-json" (fun _ => .failed []) =
      .error .configMalformed ∧
    LoadProtectedLabels "" (fun _ => .failed []) = .error .configMissing := by
  refine ⟨?_, ?_, ?_, ?_⟩ <;> simp [LoadProtected, LoadProtectedLabels]

/-! ### Claim C6 -/

/-- C6: the finalizer is removed only after the label-removal update of the
namespace has been persisted: whenever fetching the namespace fails (the
namespace is absent or the `Get` call fails) or persisting its updated
label map fails, `finalizer.Cleanup` returns an error and the stored
Namespacelabel — its finalizer list included — is unchanged. -/
theorem c6_finalizer_kept_on_cleanup_failure
    (nsLabels : Option LMap) (cr : Namespacelabel) (out : StoreOutcomes)
    (h : nsLabels = none ∨ out.nsGetOk = false ∨ out.nsUpdateOk = false) :
    (finalizerCleanup nsLabels cr out).1 ≠ none ∧
    (finalizerCleanup nsLabels cr out).2.2 = cr := by
  cases nsLabels with
  | none =>
    exact ⟨by simp [finalizerCleanup, labelsCleanup], rfl⟩
  | some m =>
    rcases h with h | h | h
    · simp at h
    · constructor <;> simp [finalizerCleanup, labelsCleanup, h]
    · by_cases hg : out.nsGetOk = false
      · constructor <;> simp [finalizerCleanup, labelsCleanup, hg]
      · constructor <;> simp [finalizerCleanup, labelsCleanup, hg, h]

/-- C6 witness: with the namespace present but its persist failing, cleanup
errors out and the finalizer list is untouched. -/
theorem c6_witness :
    (finalizerCleanup (some [("x", "y")])
        ⟨[("x", "y")], [finalizerName]⟩ ⟨true, false, true⟩).1 ≠ none ∧
    (finalizerCleanup (some [("x", "y")])
        ⟨[("x", "y")], [finalizerName]⟩ ⟨true, false, true⟩).2.2 =
      ⟨[("x", "y")], [finalizerName]⟩ :=
  c6_finalizer_kept_on_cleanup_failure (some [("x", "y")])
    ⟨[("x", "y")], [finalizerName]⟩ ⟨true, false, true⟩ (Or.inr (Or.inr rfl))

/-! ### Claim C7 -/

/-- C7 is false as stated: when the target namespace no longer exists the
cleanup does not treat this as already-clean — `labels.Cleanup` returns the
`Get` error unchanged (there is no `IgnoreNotFound` on this path), so
`finalizer.Cleanup` returns an error and the guard token stays on the
request instead of being cleared. -/
theorem c7_counterexample :
    (finalizerCleanup none ⟨[("a", "1")], [finalizerName]⟩
        ⟨true, true, true⟩).1 = some .namespaceGetFailed ∧
    (finalizerCleanup none ⟨[("a", "1")], [finalizerName]⟩
        ⟨true, true, true⟩).2.2.finalizers = [finalizerName] :=
  ⟨rfl, rfl⟩

/-- C7 (amended): when the target namespace no longer exists, the deletion
cleanup returns the namespace-fetch error and leaves the request — its
guard token included — unchanged; deletion stays blocked rather than
completing as already-clean. -/
theorem c7_amended_absent_namespace_blocks_cleanup
    (cr : Namespacelabel) (out : StoreOutcomes) :
    (finalizerCleanup none cr out).1 = some .namespaceGetFailed ∧
    (finalizerCleanup none cr out).2.2 = cr :=
  ⟨rfl, rfl⟩

/-! ### Claim C8 -/

/-- C8 is false as stated: with a store whose first persist attempt fails
(e.g. an optimistic-concurrency conflict) but whose second attempt would
succeed, `updateNamespace` surfaces the persist error after exactly one
attempt — there is no bounded retry loop around the re-fetch/merge/persist
sequence. -/
theorem c8_counterexample :
    updateNamespace [true, false] = (some .persistFailed, 1) ∧
    [true, false].getD 1 true = false :=
  ⟨rfl, rfl⟩

/-- C8 (amended): `updateNamespace` performs exactly one persist attempt
per reconciliation, succeeding exactly when that first attempt does; any
failure (conflict included) is surfaced immediately to the dispatch
runtime, whose requeue-with-backoff provides the retries. -/
theorem c8_amended_single_persist_attempt (s : List Bool) :
    (updateNamespace s).2 = 1 ∧
    ((updateNamespace s).1 = none ↔ s.headD false = false) := by
  cases s with
  | nil => exact ⟨rfl, by simp [updateNamespace]⟩
  | cons b t =>
    cases b
    · exact ⟨rfl, by simp [updateNamespace]⟩
    · exact ⟨rfl, by simp [updateNamespace]⟩

/-! ### Claim C9 -/

/-- C9 is false as stated: a key pre-existing on the namespace with the
empty-string value is not protected from overwrite — the duplicate check
tests the value for non-emptiness, so the reconciliation re-applies the key
and changes its value. -/
theorem c9_counterexample :
    getVal [("k", "")] "k" = some "" ∧
    getVal (reconcileActive [] [("k", "")] [("k", "x")] ⟨[], []⟩).1 "k" =
      some "x" := by
  refine ⟨by decide, by decide⟩

/-- C9 (amended): reconciling a request never changes the value of any
namespace key whose pre-existing value is non-empty; only keys that are
absent or carry the empty-string value can be (re)written by the apply
step. -/
theorem c9_amended_no_overwrite_of_nonempty
    (pr ns spec : LMap) (st : NamespacelabelStatus) (k : String)
    (h : lookupV ns k ≠ "") :
    getVal (reconcileActive pr ns spec st).1 k = getVal ns k := by
  have hne : classifyLabel pr ns k ≠ .applied := by
    intro hco
    exact h ((classifyLabel_eq_applied_iff pr ns k).mp hco).2
  show getVal (applyAll ns (processLabels spec pr ns).1) k = getVal ns k
  exact getVal_after_apply_of_not_applied spec pr ns k hne

/-- C9 witness: a concrete pre-existing key with non-empty value keeps its
value across a reconciliation that desires a different value for it. -/
theorem c9_witness :
    getVal (reconcileActive [] [("a", "1")] [("a", "2")] ⟨[], []⟩).1 "a" =
      getVal [("a", "1")] "a" :=
  c9_amended_no_overwrite_of_nonempty [] [("a", "1")] [("a", "2")]
    ⟨[], []⟩ "a" (by decide)

/-! ### Claim C10 -/

/-- C10: deletion cleanup removes from the namespace exactly the keys of
the deleted request's `spec.Labels` — every such key is deleted regardless
of its current value or of which writer set it (ownership is never
consulted) — and every other namespace key keeps its value; on the
successful path `finalizer.Cleanup` persists precisely this cleaned map. -/
theorem c10_cleanup_removes_exactly_spec_keys
    (ns spec : LMap) (cr : Namespacelabel) (k : String) :
    getVal (cleanupNamespaceLabels ns spec) k =
      (if hasKey spec k then none else getVal ns k) ∧
    (finalizerCleanup (some ns) cr ⟨true, true, true⟩).2.1 =
      some (cleanupNamespaceLabels ns cr.specLabels) := by
  constructor
  · have h : getVal (cleanupNamespaceLabels ns spec) k =
        if (!(hasKey spec k)) = true then getVal ns k else none :=
      getVal_filter_key ns (fun s => !(hasKey spec s)) k
    rw [h]
    by_cases hs : hasKey spec k = true <;> simp [hs]
  · rfl

/-! ### Claim C3 -/

/-- Re-classification after one reconciliation: an entry of the spec map is
classified `applied` against the post-apply namespace exactly when it was
classified `applied` against the original namespace and carries the
empty-string value (non-empty applied values make the key read as a
duplicate on the next pass). -/
theorem classify_second_pass (pr ns spec : LMap) (hn : (keys spec).Nodup)
    (k v : String) (hmem : (k, v) ∈ spec) :
    classifyLabel pr (applyAll ns (processLabels spec pr ns).1) k = .applied ↔
      (classifyLabel pr ns k = .applied ∧ v = "") := by
  by_cases hp : lookupV pr k = ""
  · by_cases hns : lookupV ns k = ""
    · have h1 : classifyLabel pr ns k = .applied :=
        (classifyLabel_eq_applied_iff pr ns k).mpr ⟨hp, hns⟩
      have hB : getVal (applyAll ns (processLabels spec pr ns).1) k = some v :=
        getVal_after_apply_of_applied spec pr ns k v hn hmem h1
      have hlv : lookupV (applyAll ns (processLabels spec pr ns).1) k = v := by
        rw [lookupV, hB]
        rfl
      rw [classifyLabel_eq_applied_iff]
      constructor
      · rintro ⟨_, h2⟩
        rw [hlv] at h2
        exact ⟨h1, h2⟩
      · rintro ⟨_, h2⟩
        exact ⟨hp, by rw [hlv]; exact h2⟩
    · have h1 : classifyLabel pr ns k ≠ .applied := by
        intro hc
        exact hns ((classifyLabel_eq_applied_iff pr ns k).mp hc).2
      have hA : getVal (applyAll ns (processLabels spec pr ns).1) k = getVal ns k :=
        getVal_after_apply_of_not_applied spec pr ns k h1
      have hlv : lookupV (applyAll ns (processLabels spec pr ns).1) k =
          lookupV ns k := by
        rw [lookupV, lookupV, hA]
      constructor
      · intro hc
        have h2 := ((classifyLabel_eq_applied_iff pr _ k).mp hc).2
        rw [hlv] at h2
        exact absurd h2 hns
      · rintro ⟨hc, _⟩
        exact absurd hc h1
  · constructor
    · intro hc
      exact absurd ((classifyLabel_eq_applied_iff pr _ k).mp hc).1 hp
    · rintro ⟨hc, _⟩
      exact absurd ((classifyLabel_eq_applied_iff pr ns k).mp hc).1 hp

/-- C3 is false as stated: reconciling the request desiring `a=1` a second
time (no external change in between) empties `status.applied` — the key
applied on the first pass now reads as a duplicate — so the second pass
does not produce a status identical to the first. -/
theorem c3_counterexample :
    (reconcileActive [] [] [("a", "1")] ⟨[], []⟩).2.appliedLabels =
      [("a", "1")] ∧
    (reconcileActive []
        (reconcileActive [] [] [("a", "1")] ⟨[], []⟩).1
        [("a", "1")]
        (reconcileActive [] [] [("a", "1")] ⟨[], []⟩).2).2.appliedLabels = [] ∧
    ([("a", "1")] : LMap) ≠ [] := by
  refine ⟨by decide, by decide, by decide⟩

/-- C3 (amended): with no intervening external change, the second
reconciliation of the same request leaves the target namespace's labels
unchanged (pointwise) and reproduces `status.skipped` exactly, but
`status.applied` is narrowed to the first-pass applied entries whose value
is the empty string (so it becomes empty whenever all applied values are
non-empty), rather than being identical to the first pass. -/
theorem c3_amended_second_pass (pr ns spec : LMap)
    (st : NamespacelabelStatus) (hn : (keys spec).Nodup) :
    (∀ k,
      getVal (reconcileActive pr (reconcileActive pr ns spec st).1 spec
        (reconcileActive pr ns spec st).2).1 k =
      getVal (reconcileActive pr ns spec st).1 k) ∧
    (reconcileActive pr (reconcileActive pr ns spec st).1 spec
        (reconcileActive pr ns spec st).2).2.skippedLabels =
      (reconcileActive pr ns spec st).2.skippedLabels ∧
    (reconcileActive pr (reconcileActive pr ns spec st).1 spec
        (reconcileActive pr ns spec st).2).2.appliedLabels =
      (reconcileActive pr ns spec st).2.appliedLabels.filter
        (fun kv => kv.2 == "") := by
  refine ⟨?_, ?_, ?_⟩
  · intro k
    show getVal (applyAll (applyAll ns (processLabels spec pr ns).1)
        (processLabels spec pr (applyAll ns (processLabels spec pr ns).1)).1) k =
      getVal (applyAll ns (processLabels spec pr ns).1) k
    by_cases hmem :
        k ∈ keys (processLabels spec pr (applyAll ns (processLabels spec pr ns).1)).1
    · obtain ⟨v2, hv2⟩ := (mem_keys_iff _ _).mp hmem
      obtain ⟨hspec, happ2⟩ := (mem_updated_iff spec pr _ k v2).mp hv2
      obtain ⟨h1, hv2eq⟩ :=
        (classify_second_pass pr ns spec hn k v2 hspec).mp happ2
      have hB : getVal (applyAll ns (processLabels spec pr ns).1) k = some v2 :=
        getVal_after_apply_of_applied spec pr ns k v2 hn hspec h1
      have upd2nodup := keys_updated_nodup spec pr
        (applyAll ns (processLabels spec pr ns).1) hn
      have hg : getVal (processLabels spec pr
          (applyAll ns (processLabels spec pr ns).1)).1 k = some v2 :=
        getVal_of_mem_nodup upd2nodup hv2
      rw [getVal_applyAll_mem _ _ k v2 upd2nodup hg, hB]
    · exact getVal_applyAll_not_mem _ _ k hmem
  · show (processLabels spec pr (applyAll ns (processLabels spec pr ns).1)).2.1 =
      (processLabels spec pr ns).2.1
    apply List.filter_congr
    intro kv _
    obtain ⟨k, v⟩ := kv
    show (classifyLabel pr (applyAll ns (processLabels spec pr ns).1) k ==
        LabelOutcome.skippedProtected) =
      (classifyLabel pr ns k == LabelOutcome.skippedProtected)
    by_cases hp : lookupV pr k ≠ ""
    · rw [(classifyLabel_eq_skippedProtected_iff pr _ k).mpr hp,
        (classifyLabel_eq_skippedProtected_iff pr ns k).mpr hp]
    · have e1 : classifyLabel pr (applyAll ns (processLabels spec pr ns).1) k ≠
          .skippedProtected := fun hc =>
        hp ((classifyLabel_eq_skippedProtected_iff pr _ k).mp hc)
      have e2 : classifyLabel pr ns k ≠ .skippedProtected := fun hc =>
        hp ((classifyLabel_eq_skippedProtected_iff pr ns k).mp hc)
      rw [beq_eq_false_iff_ne.mpr e1, beq_eq_false_iff_ne.mpr e2]
  · show (processLabels spec pr (applyAll ns (processLabels spec pr ns).1)).1 =
      ((processLabels spec pr ns).1).filter (fun kv => kv.2 == "")
    conv_rhs =>
      rw [show (processLabels spec pr ns).1 =
        spec.filter (fun kv => classifyLabel pr ns kv.1 == LabelOutcome.applied)
        from rfl]
    rw [List.filter_filter]
    apply List.filter_congr
    intro kv hkv
    obtain ⟨k, v⟩ := kv
    show (classifyLabel pr (applyAll ns (processLabels spec pr ns).1) k ==
        LabelOutcome.applied) =
      ((v == "") && (classifyLabel pr ns k == LabelOutcome.applied))
    have hC := classify_second_pass pr ns spec hn k v hkv
    by_cases h1 : classifyLabel pr (applyAll ns (processLabels spec pr ns).1) k =
        .applied
    · obtain ⟨h2, h3⟩ := hC.mp h1
      rw [h1, h2, h3]
      simp
    · have hno : ¬(classifyLabel pr ns k = .applied ∧ v = "") := fun hc =>
        h1 (hC.mpr hc)
      by_cases h2 : classifyLabel pr ns k = .applied
      · have h3 : v ≠ "" := fun hv => hno ⟨h2, hv⟩
        rw [beq_eq_false_iff_ne.mpr h1, beq_eq_false_iff_ne.mpr h3]
        simp
      · rw [beq_eq_false_iff_ne.mpr h1, beq_eq_false_iff_ne.mpr h2]
        simp

/-- C3 witness: concrete second pass leaving namespace and skipped map
unchanged. -/
theorem c3_witness :
    getVal (reconcileActive [] (reconcileActive [] [] [("a", "1")] ⟨[], []⟩).1
        [("a", "1")] (reconcileActive [] [] [("a", "1")] ⟨[], []⟩).2).1 "a" =
      getVal (reconcileActive [] [] [("a", "1")] ⟨[], []⟩).1 "a" ∧
    (reconcileActive [] (reconcileActive [] [] [("a", "1")] ⟨[], []⟩).1
        [("a", "1")] (reconcileActive [] [] [("a", "1")] ⟨[], []⟩).2).2.skippedLabels =
      (reconcileActive [] [] [("a", "1")] ⟨[], []⟩).2.skippedLabels :=
  ⟨(c3_amended_second_pass [] [] [("a", "1")] ⟨[], []⟩ (by decide)).1 "a",
   (c3_amended_second_pass [] [] [("a", "1")] ⟨[], []⟩ (by decide)).2.1⟩
